import Mathlib

/-!
Verification development for the `source-map` crate: a shallow embedding of
its line-start index, string-encoding helpers, span conversions, source
registries and the source-map builder, together with theorems settling the
frozen claims about them.

Strings are modelled as `List Char`; byte offsets are `Nat` and are related
to the character list through `Char.utf8Size`.  Machine-integer wrap-around
(`u8`/`u16` arithmetic, which wraps in release builds) is modelled with
explicit `% 256` / `% 65536`.  A Rust `panic!`/`unwrap` failure is modelled
by returning `none`.
-/

/-- UTF-8 byte length of a character list (models `str::len`). -/
def byteLen (s : List Char) : Nat :=
  (s.map Char.utf8Size).sum

/-- Scan for line starts: byte index immediately after every newline
(models the `match_indices('\x0a')` loop of `LineStarts::new`). -/
def lineStartsAux : List Char → Nat → List Nat
  | [], _ => []
  | c :: rest, pos =>
    if c = '\n' then (pos + 1) :: lineStartsAux rest (pos + c.utf8Size)
    else lineStartsAux rest (pos + c.utf8Size)

/-- `LineStarts::new`: a leading `0` followed by the byte index after each
newline of the content. -/
def lineStarts (content : List Char) : List Nat :=
  0 :: lineStartsAux content 0

/-- First index (from the front) whose element satisfies the predicate;
models `Iterator::position`. -/
def findIndexFrom? (p : Nat → Bool) : List Nat → Option Nat
  | [] => none
  | a :: rest => if p a then some 0 else (findIndexFrom? p rest).map (· + 1)

/-- `LineStarts::get_line_and_column_pos_is_on`: reverse scan for the last
line start at or before `pos`; `none` models the `expect("pos out of
bounds")` panic. -/
def get_line_and_column_pos_is_on (starts : List Nat) (pos : Nat) :
    Option (Nat × Nat) :=
  (findIndexFrom? (fun idx => decide (idx ≤ pos)) starts.reverse).bind (fun b =>
    (starts.get? (starts.length - 1 - b)).map (fun s =>
      (starts.length - 1 - b, pos - s)))

/-- `LineStarts::get_line_pos_is_on`. -/
def get_line_pos_is_on (starts : List Nat) (pos : Nat) : Option Nat :=
  (get_line_and_column_pos_is_on starts pos).map Prod.fst

/-- The overlapping pairs of consecutive elements; models `slice::windows(2)`. -/
def windows2 : List Nat → List (Nat × Nat)
  | a :: b :: rest => (a, b) :: windows2 (b :: rest)
  | _ => []

/-- `LineStarts::byte_indexes_on_same_line`: find the first window whose
inclusive range contains `pos1`, then test whether it also contains `pos2`;
`none` models the `expect("could not find splits for pos1")` panic. -/
def byte_indexes_on_same_line (starts : List Nat) (pos1 pos2 : Nat) :
    Option Bool :=
  match (windows2 starts).find? (fun w => decide (w.1 ≤ pos1) && decide (pos1 ≤ w.2)) with
  | none => none
  | some w => some (decide (w.1 ≤ pos2) && decide (pos2 ≤ w.2))

/-- The 64-character Base64-VLQ alphabet of the crate. -/
def base64_alphabet : List Char :=
  "ABCDEFGHIJKLMNOPQRSTUVWXYZabcdefghijklmnopqrstuvwxyz0123456789+/".toList

/-- The do-while loop of `vlq_encode_integer_to_buffer`, on the non-negative
payload: emit 5 payload bits plus a continuation bit per character.  The
first argument is fuel; callers pass `payload + 1`, which
`vlq_loop_fuel_irrelevant` shows is always enough, so the `0` clause is
never reached from `vlq_encode_integer`. -/
def vlq_loop : Nat → Nat → List Char
  | 0, _ => []
  | fuel + 1, p =>
    let clamped := p % 32
    let rest := p / 32
    if 0 < rest then base64_alphabet.getD (clamped + 32) ' ' :: vlq_loop fuel rest
    else [base64_alphabet.getD clamped ' ']

/-- `vlq_encode_integer_to_buffer` (returning the appended characters
instead of mutating a buffer): the sign moves to the least significant bit
of the payload, then base-32 digits are emitted with continuation bits. -/
def vlq_encode_integer (value : Int) : List Char :=
  let payload : Nat := if value < 0 then ((-value) * 2 + 1).toNat else (value * 2).toNat
  vlq_loop (payload + 1) payload

theorem vlq_loop_fuel_irrelevant (f g p : Nat) (hf : p < f) (hg : p < g) :
    vlq_loop f p = vlq_loop g p := by
  induction f generalizing g p with
  | zero => omega
  | succ f ih =>
    cases g with
    | zero => omega
    | succ g =>
      simp only [vlq_loop]
      by_cases h : 0 < p / 32
      · have hp : 32 ≤ p := by
          by_contra hlt
          interval_cases p <;> simp_all
        have hlt : p / 32 < p := Nat.div_lt_self (by omega) (by omega)
        rw [if_pos h, if_pos h, ih g (p / 32) (by omega) (by omega)]
      · rw [if_neg h, if_neg h]

example : vlq_encode_integer 0 = ['A'] := by decide
example : vlq_encode_integer 123 = ['2', 'H'] := by decide
example : lineStarts ['a', '\n', 'b'] = [0, 2] := by decide
example : get_line_and_column_pos_is_on (lineStarts ['a', '\n', 'b']) 2 = some (1, 0) := by
  decide

/-- Drop the first `n` bytes of a character list; `none` models the panic a
Rust slice `&s[n..]` raises when `n` is not a character boundary or is past
the end. -/
def dropBytes : List Char → Nat → Option (List Char)
  | s, 0 => some s
  | [], _ + 1 => none
  | c :: rest, n + 1 =>
    if c.utf8Size ≤ n + 1 then dropBytes rest (n + 1 - c.utf8Size) else none

/-- Take the first `n` bytes of a character list; `none` models the panic a
Rust slice `&s[..n]` raises when `n` is not a character boundary or is past
the end. -/
def takeBytes : List Char → Nat → Option (List Char)
  | _, 0 => some []
  | [], _ + 1 => none
  | c :: rest, n + 1 =>
    if c.utf8Size ≤ n + 1 then (takeBytes rest (n + 1 - c.utf8Size)).map (fun t => c :: t)
    else none

/-- The Rust slice `&s[a..b]` (callers uphold `a ≤ b`, which the crate's
conversions always do). -/
def sliceBytes (s : List Char) (a b : Nat) : Option (List Char) :=
  (dropBytes s a).bind (fun suffix => takeBytes suffix (b - a))

/-- The two column encodings of `encodings.rs`. -/
inductive StringEncoding
  | byteWise
  | utf8
deriving DecidableEq

/-- `StringEncoding::get_encoded_length`: `str::len` for `ByteWiseEncoding`,
`chars().count()` for `Utf8`. -/
def get_encoded_length : StringEncoding → List Char → Nat
  | .byteWise, s => byteLen s
  | .utf8, s => s.length

/-- `StringEncoding::encoded_length_to_byte_count`: the identity for
`ByteWiseEncoding`; for `Utf8` the source computes
`chars().take(length).map(char::len_utf8).count()` — the `.count()` makes
the `len_utf8` mapping dead, so the result is the number of characters
taken, not their byte count. -/
def encoded_length_to_byte_count : StringEncoding → List Char → Nat → Nat
  | .byteWise, _, n => n
  | .utf8, s, n => ((s.take n).map Char.utf8Size).length

/-- A registered source: `filesystem.rs`'s `Source` (path, content and the
content's precomputed line starts). -/
structure Source where
  path : List Char
  content : List Char
  line_starts : List Nat
deriving DecidableEq

/-- `MapFileStore::new_source_id_with_line_starts`: push a `Source` built
from the path and content, return `SourceId(sources.len())`; `none` models
the `try_into::<u8>().unwrap()` panic once the new length exceeds 255. -/
def MapFileStore.new_source_id (store : List Source) (path content : List Char) :
    Option (Nat × List Source) :=
  let store2 := store ++ [⟨path, content, lineStarts content⟩]
  if store2.length ≤ 255 then some (store2.length, store2) else none

/-- `Position::into_line_column_position`: resolve the byte offset to its
line via the source's line-start index, then measure the column of the
slice from the line start under the chosen encoding. -/
def Position.into_line_column_position (enc : StringEncoding) (src : Source)
    (pos : Nat) : Option (Nat × Nat) :=
  match get_line_pos_is_on src.line_starts pos with
  | none => none
  | some line =>
    match src.line_starts.get? line with
    | none => none
    | some lineByte =>
      match sliceBytes src.content lineByte pos with
      | none => none
      | some slice => some (line, get_encoded_length enc slice)

/-- `LineColumnPosition::into_scalar_position`: the line's start byte plus
the byte count of `column` encoded units of the suffix starting there. -/
def LineColumnPosition.into_scalar_position (enc : StringEncoding) (src : Source)
    (line column : Nat) : Option Nat :=
  match src.line_starts.get? line with
  | none => none
  | some lineByte =>
    match dropBytes src.content lineByte with
    | none => none
    | some suffix => some (lineByte + encoded_length_to_byte_count enc suffix column)

/-- `LineColumnSpan::into_scalar_span`.  Note: for the end endpoint the
source reads `self.column_start` (not `self.column_end`) when converting
the column to a byte count; the model mirrors that line faithfully, which
is why `column_end` is unused. -/
def LineColumnSpan.into_scalar_span (enc : StringEncoding) (src : Source)
    (line_start column_start line_end column_end : Nat) : Option (Nat × Nat) :=
  match src.line_starts.get? line_start with
  | none => none
  | some lineStartByte =>
    match dropBytes src.content lineStartByte with
    | none => none
    | some startSuffix =>
      match src.line_starts.get? line_end with
      | none => none
      | some lineEndByte =>
        match dropBytes src.content lineEndByte with
        | none => none
        | some endSuffix =>
          some (lineStartByte + encoded_length_to_byte_count enc startSuffix column_start,
                lineEndByte + encoded_length_to_byte_count enc endSuffix column_start)

/-- A `Source` exactly as `new_source_id_with_line_starts` registers it. -/
def Source.register (content : List Char) : Source :=
  ⟨[], content, lineStarts content⟩

example :
    Position.into_line_column_position StringEncoding.utf8 (Source.register ['é']) 2 =
      some (0, 1) := by decide
example :
    LineColumnPosition.into_scalar_position StringEncoding.utf8 (Source.register ['é']) 0 1 =
      some 1 := by decide
example :
    LineColumnSpan.into_scalar_span StringEncoding.byteWise (Source.register ['a', 'b'])
      0 0 0 1 = some (0, 0) := by decide

/-- One operation of the `ToString` sink trait (`to_string.rs`). -/
inductive SinkOp
  | push (c : Char)
  | pushNewLine
  | pushStr (s : List Char)
  | pushStrContainsNewLine (s : List Char)
  | addMapping (spanStart spanEnd src : Nat)

/-- One step of the `Counter` sink: `push` adds `len_utf8`, `push_new_line`
forwards to `push('\x0a')`, but `push_str` and
`push_str_contains_new_line` add `chars().count()` — the number of
characters, not bytes. -/
def Counter.applyOp : Nat → SinkOp → Nat
  | acc, .push c => acc + c.utf8Size
  | acc, .pushNewLine => acc + Char.utf8Size '\n'
  | acc, .pushStr s => acc + s.length
  | acc, .pushStrContainsNewLine s => acc + s.length
  | acc, .addMapping _ _ _ => acc

/-- `Counter::get_count` after a sequence of sink operations. -/
def Counter.run (ops : List SinkOp) : Nat :=
  ops.foldl Counter.applyOp 0

/-- One step of the plain `String` sink: every push appends its text,
`add_mapping` is a no-op. -/
def StringSink.applyOp : List Char → SinkOp → List Char
  | buf, .push c => buf ++ [c]
  | buf, .pushNewLine => buf ++ ['\n']
  | buf, .pushStr s => buf ++ s
  | buf, .pushStrContainsNewLine s => buf ++ s
  | buf, .addMapping _ _ _ => buf

/-- The string the plain `String` sink accumulates. -/
def StringSink.run (ops : List SinkOp) : List Char :=
  ops.foldl StringSink.applyOp []

/-- An entry of the global `SOURCE_IDS` registry of `lib.rs`: a source name
and optional content. -/
abbrev SMEntry := List Char × Option (List Char)

/-- The global `SOURCE_IDS` map from source-id values to entries. -/
abbrev Global := List (Nat × SMEntry)

/-- The `SourceMap` builder state of `lib.rs` (the `mappings` buffer plus
the running output and source positions; `line` is a `u16`, `column` a
`u8`, modelled with explicit wrap-around). -/
structure SourceMap where
  buf : List Char
  line : Nat
  column : Nat
  last_line : Option Nat
  last_column : Int
  last_source_line : Nat
  last_source_column : Int
  sources : List SMEntry
  sources_map : List (Nat × Nat)
deriving DecidableEq

/-- `SourceMap::new`. -/
def SourceMap.new : SourceMap :=
  ⟨[], 0, 0, none, 0, 0, 0, [], []⟩

/-- The `','` segment separator `add_mapping` pushes when the previous
mapping was on the same output line. -/
def maybe_comma (st : SourceMap) : List Char :=
  match st.last_line with
  | some ll => if ll = st.line then [','] else []
  | none => []

/-- The source-index resolution inside `add_mapping`: reuse the index in
`sources_map`, otherwise read the global registry (where a missing id is
the `unwrap` panic, modelled as `none`) and append a new entry; the index
is cast `as u8`. -/
def resolve_source (st : SourceMap) (g : Global) (src : Nat) :
    Option (Nat × List SMEntry × List (Nat × Nat)) :=
  match st.sources_map.lookup src with
  | some idx => some (idx, st.sources, st.sources_map)
  | none =>
    match g.lookup src with
    | none => none
    | some entry =>
      let sources2 := st.sources ++ [entry]
      let idx := (sources2.length - 1) % 256
      some (idx, sources2, st.sources_map ++ [(src, idx)])

/-- `SourceMap::add_mapping` (`original_line`/`original_column` are
one-indexed).  On success the buffer gains the optional comma and the four
relative VLQ integers; a missing source id in the global registry is the
`unwrap` panic (`none`).  `original_line as u16 - 1` wraps in a `u16`. -/
def SourceMap.add_mapping (st : SourceMap) (original_line original_column src : Nat)
    (g : Global) : Option SourceMap :=
  match resolve_source st g src with
  | none => none
  | some (idx, sources2, smap2) =>
    some { st with
      buf := st.buf ++ maybe_comma st
        ++ vlq_encode_integer ((st.column : Int) - st.last_column)
        ++ vlq_encode_integer (Int.ofNat idx)
        ++ vlq_encode_integer ((original_line : Int) - 1 - (st.last_source_line : Int))
        ++ vlq_encode_integer ((original_column : Int) - st.last_source_column),
      last_line := some st.line,
      last_source_line := (original_line % 65536 + 65535) % 65536,
      last_source_column := (original_column : Int),
      last_column := (st.column : Int),
      sources := sources2,
      sources_map := smap2 }

/-- `SourceMap::add_new_line`: push `';'`, advance the output line, reset
the column bookkeeping. -/
def SourceMap.add_new_line (st : SourceMap) : SourceMap :=
  { st with
    line := (st.line + 1) % 65536,
    buf := st.buf ++ [';'],
    column := 0,
    last_column := 0 }

/-- `SourceMap::add_to_column` (`length as u8` truncates, and the `u8`
addition wraps). -/
def SourceMap.add_to_column (st : SourceMap) (length : Nat) : SourceMap :=
  { st with column := (st.column + length % 256) % 256 }

/-- `SourceMap::add_source`. -/
def SourceMap.add_source (st : SourceMap) (name : List Char)
    (content : Option (List Char)) : SourceMap :=
  { st with sources := st.sources ++ [(name, content)] }

/-- One builder event, in the order the generator issues them. -/
inductive SMEvent
  | addMapping (original_line original_column src : Nat)
  | addNewLine
  | addToColumn (n : Nat)
  | addSource (name : List Char) (content : Option (List Char))

/-- Apply one builder event (`none` propagates the `add_mapping` panic). -/
def applyEvent (g : Global) (st : SourceMap) : SMEvent → Option SourceMap
  | .addMapping l c s => st.add_mapping l c s g
  | .addNewLine => some st.add_new_line
  | .addToColumn n => some (st.add_to_column n)
  | .addSource nm ct => some (st.add_source nm ct)

/-- Run builder events from a given state. -/
def runFrom (g : Global) : List SMEvent → SourceMap → Option SourceMap
  | [], st => some st
  | e :: rest, st =>
    match applyEvent g st e with
    | none => none
    | some st2 => runFrom g rest st2

/-- Run builder events from `SourceMap::new`. -/
def runEvents (evs : List SMEvent) (g : Global) : Option SourceMap :=
  runFrom g evs SourceMap.new

/-- The number of `add_new_line` events in a sequence. -/
def countNewLines (evs : List SMEvent) : Nat :=
  evs.countP (fun e => match e with | .addNewLine => true | _ => false)

/-- `source_name.replace('\x5c', escaped)` of `SourceMap::to_string`. -/
def escape_name (s : List Char) : List Char :=
  s.flatMap (fun c => if c = '\\' then ['\\', '\\'] else [c])

/-- The content transformation of `SourceMap::to_string`:
`content.replace('\x0a', newline-escape).replace('\x0d', empty)` — the
newline is escaped, the carriage return is deleted, everything else
(including double quotes) is kept verbatim. -/
def escape_content (s : List Char) : List Char :=
  (s.flatMap (fun c => if c = '\n' then ['\\', 'n'] else [c])).flatMap
    (fun c => if c = '\r' then [] else [c])

/-- One `sources` entry as rendered by `SourceMap::to_string`. -/
def render_name_entry (e : SMEntry) : List Char :=
  '"' :: (escape_name e.1 ++ ['"'])

/-- One `sourcesContent` entry as rendered by `SourceMap::to_string`. -/
def render_content_entry (e : SMEntry) : List Char :=
  '"' :: ((match e.2 with | some c => escape_content c | none => []) ++ ['"'])

/-- `SourceMap::to_string`: the fixed-order JSON envelope. -/
def SourceMap.to_string (st : SourceMap) : List Char :=
  ("\x7b\"version\":3,\"sourceRoot\":\"\",\"sources\":[").toList
    ++ List.intercalate [','] (st.sources.map render_name_entry)
    ++ ("],\"sourcesContent\":[").toList
    ++ List.intercalate [','] (st.sources.map render_content_entry)
    ++ ("],\"names\":[],\"mappings\":\"").toList
    ++ st.buf ++ ("\"\x7d").toList

example : Counter.run [SinkOp.pushStr ['é']] = 1 := by decide
example : byteLen (StringSink.run [SinkOp.pushStr ['é']]) = 2 := by decide
example : runEvents [SMEvent.addMapping 1 0 0] [] = none := by decide
example :
    runEvents [SMEvent.addMapping 1 0 1] [(1, (['f'], none))] =
      some ⟨['A', 'A', 'A', 'A'], 0, 0, some 0, 0, 0, 0, [(['f'], none)], [(1, 0)]⟩ := by
  decide
example :
    SourceMap.to_string { SourceMap.new with sources := [(['f'], some ['a', '"', '\r', 'b'])] } =
      ("\x7b\"version\":3,\"sourceRoot\":\"\",\"sources\":[\"f\"],\"sourcesContent\":[\"a\"b\"],\"names\":[],\"mappings\":\"\"\x7d").toList := by
  decide

/-- `n` successive `SourceId::new` calls against the global `AtomicU8`
counter starting at state `s`: `fetch_add(1)` returns the old value and
wraps modulo 256 (Rust atomics wrap on overflow). -/
def global_ids_aux : Nat → Nat → List Nat
  | 0, _ => []
  | n + 1, s => s :: global_ids_aux n ((s + 1) % 256)

/-- The handles returned by the first `n` `SourceId::new` calls (the
counter is initialised to 1). -/
def global_ids (n : Nat) : List Nat :=
  global_ids_aux n 1

/-- The handles returned by `n` successive `MapFileStore` registrations
from a given store; `none` models the `u8` conversion panic. -/
def store_ids_aux : Nat → List Source → Option (List Nat)
  | 0, _ => some []
  | n + 1, store =>
    match MapFileStore.new_source_id store [] [] with
    | none => none
    | some (id, store2) => (store_ids_aux n store2).map (fun rest => id :: rest)

/-- The handles returned by the first `n` registrations in an empty
`MapFileStore`. -/
def store_ids (n : Nat) : Option (List Nat) :=
  store_ids_aux n []

example : global_ids 3 = [1, 2, 3] := by decide
example : store_ids 3 = some [1, 2, 3] := by decide

/-! ### Helper lemmas -/

theorem findIndexFrom?_isSome_of_mem {p : Nat → Bool} {l : List Nat} {a : Nat}
    (ha : a ∈ l) (hp : p a = true) : (findIndexFrom? p l).isSome = true := by
  induction l with
  | nil => cases ha
  | cons b rest ih =>
    simp only [findIndexFrom?]
    by_cases hb : p b
    · simp [hb]
    · rcases List.mem_cons.mp ha with rfl | hrest
      · simp_all
      · simp only [if_neg hb]
        have := ih hrest
        cases hfind : findIndexFrom? p rest with
        | none => rw [hfind] at this; simp at this
        | some k => simp [hfind]

theorem findIndexFrom?_lt_length {p : Nat → Bool} {l : List Nat} {b : Nat}
    (h : findIndexFrom? p l = some b) : b < l.length := by
  induction l generalizing b with
  | nil => cases h
  | cons a rest ih =>
    simp only [findIndexFrom?] at h
    by_cases ha : p a
    · rw [if_pos ha] at h
      cases h
      simp
    · rw [if_neg ha] at h
      cases hfind : findIndexFrom? p rest with
      | none => rw [hfind] at h; cases h
      | some k =>
        rw [hfind] at h
        simp only [Option.map_some'] at h
        cases h
        have := ih hfind
        simp
        omega

theorem findIndexFrom?_cons_of_true {p : Nat → Bool} {a : Nat} (r : List Nat)
    (ha : p a = true) : findIndexFrom? p (a :: r) = some 0 := by
  simp [findIndexFrom?, ha]

theorem vlq_loop_count_semi (f p : Nat) : (vlq_loop f p).count ';' = 0 := by
  induction f generalizing p with
  | zero => rfl
  | succ f ih =>
    have halph : ∀ i : Nat, base64_alphabet[i]?.getD ' ' ≠ ';' := by
      intro i
      cases hg : base64_alphabet[i]? with
      | none => simp
      | some c =>
        have hc : c ∈ base64_alphabet := by
          apply List.get?_mem
          rw [List.get?_eq_getElem?]
          exact hg
        simp only [Option.getD_some]
        intro rfl_eq
        subst rfl_eq
        revert hc
        decide
    simp only [vlq_loop]
    by_cases h : 0 < p / 32
    · rw [if_pos h]
      rw [List.count_cons]
      have := halph (p % 32 + 32)
      simp [ih, this]
    · rw [if_neg h]
      have := halph (p % 32)
      simp [List.count_cons, this]

theorem vlq_count_semi (v : Int) : (vlq_encode_integer v).count ';' = 0 := by
  unfold vlq_encode_integer
  exact vlq_loop_count_semi _ _

theorem maybe_comma_count_semi (st : SourceMap) : (maybe_comma st).count ';' = 0 := by
  unfold maybe_comma
  cases st.last_line with
  | none => rfl
  | some ll =>
    by_cases h : ll = st.line
    · simp [h]
    · simp [h]

theorem add_mapping_count_semi {st st' : SourceMap} {l c s : Nat} {g : Global}
    (h : st.add_mapping l c s g = some st') :
    st'.buf.count ';' = st.buf.count ';' := by
  unfold SourceMap.add_mapping at h
  cases hr : resolve_source st g s with
  | none => rw [hr] at h; cases h
  | some trip =>
    obtain ⟨idx, sources2, smap2⟩ := trip
    rw [hr] at h
    simp only [Option.some.injEq] at h
    subst h
    simp [List.count_append, vlq_count_semi, maybe_comma_count_semi]

theorem runFrom_count_semi (g : Global) (evs : List SMEvent) :
    ∀ (st st' : SourceMap), runFrom g evs st = some st' →
      st'.buf.count ';' = st.buf.count ';' + countNewLines evs := by
  induction evs with
  | nil =>
    intro st st' h
    simp only [runFrom, Option.some.injEq] at h
    subst h
    simp [countNewLines]
  | cons e rest ih =>
    intro st st' h
    simp only [runFrom] at h
    cases happ : applyEvent g st e with
    | none => rw [happ] at h; cases h
    | some st1 =>
      rw [happ] at h
      have hrest := ih st1 st' h
      cases e with
      | addMapping l c s =>
        simp only [applyEvent] at happ
        rw [hrest, add_mapping_count_semi happ]
        simp [countNewLines, List.countP_cons]
      | addNewLine =>
        simp only [applyEvent, Option.some.injEq] at happ
        subst happ
        rw [hrest]
        unfold SourceMap.add_new_line
        simp only [countNewLines, List.countP_cons, List.count_append]
        simp [countNewLines]
        omega
      | addToColumn n =>
        simp only [applyEvent, Option.some.injEq] at happ
        subst happ
        rw [hrest]
        simp [SourceMap.add_to_column, countNewLines, List.countP_cons]
      | addSource nm ct =>
        simp only [applyEvent, Option.some.injEq] at happ
        subst happ
        rw [hrest]
        simp [SourceMap.add_source, countNewLines, List.countP_cons]

theorem global_ids_aux_eq_range :
    ∀ (n s : Nat), s + n ≤ 256 → global_ids_aux n s = List.range' s n := by
  intro n
  induction n with
  | zero => intro s _; rfl
  | succ n ih =>
    intro s h
    simp only [global_ids_aux]
    cases n with
    | zero => rfl
    | succ m =>
      have hmod : (s + 1) % 256 = s + 1 := Nat.mod_eq_of_lt (by omega)
      rw [hmod, ih (s + 1) (by omega)]
      rfl

theorem store_ids_aux_eq_range :
    ∀ (n : Nat) (store : List Source), store.length + n ≤ 255 →
      store_ids_aux n store = some (List.range' (store.length + 1) n) := by
  intro n
  induction n with
  | zero => intro store _; rfl
  | succ n ih =>
    intro store h
    have hstep : MapFileStore.new_source_id store [] [] =
        some (store.length + 1, store ++ [⟨[], [], lineStarts []⟩]) := by
      unfold MapFileStore.new_source_id
      rw [if_pos (by simp; omega)]
      simp
    have hrec := ih (store ++ [⟨[], [], lineStarts []⟩]) (by simp; omega)
    simp only [List.length_append, List.length_cons, List.length_nil] at hrec
    simp only [store_ids_aux, hstep, hrec, Option.map_some']
    rfl

/-! ### The claims -/

/-- Claim C5 (confirmed): the Base64-VLQ encoder appended to an empty
buffer produces exactly `A` for 0, `C` for 1, `D` for -1, `2H` for 123 and
`qxmvrH` for 123456789. -/
theorem vlq_test_vectors :
    vlq_encode_integer 0 = ['A'] ∧ vlq_encode_integer 1 = ['C'] ∧
    vlq_encode_integer (-1) = ['D'] ∧ vlq_encode_integer 123 = ['2', 'H'] ∧
    vlq_encode_integer 123456789 = ['q', 'x', 'm', 'v', 'r', 'H'] := by decide

/-- Claim C8 (confirmed): after any successful sequence of builder events,
the number of `';'` characters in the `mappings` buffer equals the number
of `add_new_line` events; `add_mapping` emits only `','` and Base64
alphabet characters, and no operation removes characters. -/
theorem semicolons_equal_newline_events (evs : List SMEvent) (g : Global)
    (st' : SourceMap) (h : runEvents evs g = some st') :
    st'.buf.count ';' = countNewLines evs := by
  have hc := runFrom_count_semi g evs SourceMap.new st' h
  simpa [SourceMap.new] using hc

/-- A concrete event sequence and registry for the C8 witness. -/
def witness_events : List SMEvent :=
  [SMEvent.addNewLine, SMEvent.addMapping 1 0 1, SMEvent.addNewLine]

/-- A concrete global registry for the C8 witness. -/
def witness_global : Global := [(1, (['f'], none))]

/-- Witness for C8 at a concrete event sequence: two `add_new_line` events
plus a mapping produce a buffer with exactly two semicolons. -/
theorem semicolons_equal_newline_events_witness :
    ∃ st, runEvents witness_events witness_global = some st ∧
      st.buf.count ';' = countNewLines witness_events :=
  ⟨_, rfl, semicolons_equal_newline_events witness_events witness_global _ rfl⟩

/-- Claim C1 (code bug): `add_mapping` with the null source id (0) does not
behave like omitting the call — the null id is never in the global
registry, so the `unwrap` of the registry lookup panics (modelled as
`none`), whereas omitting the call leaves the fresh builder intact; and
even if id 0 were manually registered, the call would emit a full segment
and put the null source into `sources`. -/
theorem null_source_mapping_panics :
    runEvents [SMEvent.addMapping 1 0 0] [(1, (['f'], none))] = none ∧
    runEvents [] [(1, (['f'], none))] = some SourceMap.new ∧
    (runEvents [SMEvent.addMapping 1 0 0] [(0, (['n'], none))]).map
        (fun st => (st.sources, st.buf)) =
      some ([(['n'], none)], ['A', 'A', 'A', 'A']) := by decide

/-- Claim C2 (code bug): the byte-position round trip fails under `Utf8` on
multi-byte characters: for content `"é"` (2 bytes) and offset 2,
`into_line_column_position` gives column 1, but
`into_scalar_position` — whose `Utf8` case counts characters instead of
summing their byte lengths — returns offset 1, not 2.  Under `ByteWise`
the same round trip does return 2. -/
theorem utf8_position_roundtrip_fails :
    (Position.into_line_column_position StringEncoding.utf8 (Source.register ['é']) 2).bind
      (fun lc => LineColumnPosition.into_scalar_position StringEncoding.utf8
        (Source.register ['é']) lc.1 lc.2) = some 1 ∧
    (Position.into_line_column_position StringEncoding.byteWise (Source.register ['é']) 2).bind
      (fun lc => LineColumnPosition.into_scalar_position StringEncoding.byteWise
        (Source.register ['é']) lc.1 lc.2) = some 2 := by decide

/-- Claim C3 (code bug): `into_scalar_span` computes the end endpoint from
`column_start`, not `column_end`: on content `"ab"` the byte-wise span with
`column_start = 0, column_end = 1` comes back as `(0, 0)` instead of
`(0, 1)`; indeed the result never depends on `column_end` at all. -/
theorem scalar_span_end_ignores_column_end :
    LineColumnSpan.into_scalar_span StringEncoding.byteWise (Source.register ['a', 'b'])
        0 0 0 1 = some (0, 0) ∧
    ∀ (enc : StringEncoding) (src : Source) (ls cs le ce ce' : Nat),
      LineColumnSpan.into_scalar_span enc src ls cs le ce =
        LineColumnSpan.into_scalar_span enc src ls cs le ce' :=
  ⟨by decide, fun _ _ _ _ _ _ _ => rfl⟩

/-- Claim C4 (code bug): `to_string` transforms `sourcesContent` entries by
escaping `'\x0a'` but it deletes `'\x0d'` (instead of escaping it to
`\x5cr`) and passes `'"'` through verbatim (instead of escaping it):
content `a"␍b` is rendered as `"a"b"` inside the JSON. -/
theorem sources_content_escaping_diverges :
    escape_content ['a', '"', '\r', 'b'] = ['a', '"', 'b'] ∧
    SourceMap.to_string
        { SourceMap.new with sources := [(['f'], some ['a', '"', '\r', 'b'])] } =
      ("\x7b\"version\":3,\"sourceRoot\":\"\",\"sources\":[\"f\"],\"sourcesContent\":[\"a\"b\"],\"names\":[],\"mappings\":\"\"\x7d").toList := by
  decide

/-- Claim C6 (code bug): `byte_indexes_on_same_line` is neither total nor a
same-line test: on content without a newline (`"abc"`) the window scan is
empty and the `expect` panics even for `p = q = 0`, and on `"a\x0abc"` the
positions 2 and 3 both lie on line 1 yet the query answers `false`. -/
theorem same_line_query_panics_and_misclassifies :
    byte_indexes_on_same_line (lineStarts ['a', 'b', 'c']) 0 0 = none ∧
    byte_indexes_on_same_line (lineStarts ['a', '\n', 'b', 'c']) 2 3 = some false ∧
    get_line_pos_is_on (lineStarts ['a', '\n', 'b', 'c']) 2 = some 1 ∧
    get_line_pos_is_on (lineStarts ['a', '\n', 'b', 'c']) 3 = some 1 := by decide

/-- Claim C9 (code bug): the `Counter` sink does not accumulate the UTF-8
byte length of what the plain `String` sink accumulates: `push_str` adds
`chars().count()`, so pushing the two-byte string `"é"` counts 1 while the
`String` sink grows by 2 bytes. -/
theorem counter_push_str_counts_chars :
    Counter.run [SinkOp.pushStr ['é']] = 1 ∧
    byteLen (StringSink.run [SinkOp.pushStr ['é']]) = 2 := by decide

set_option maxRecDepth 4000 in
/-- Claim C7 (counterexample): the global `AtomicU8` counter wraps, so with
257 registrations the 256th call returns the null handle 0 and the 257th
returns 1 again — the same handle as the very first call. -/
theorem source_id_handles_wrap :
    (global_ids 257).getD 0 99 = 1 ∧
    (global_ids 257).getD 255 99 = 0 ∧
    (global_ids 257).getD 256 99 = 1 := by decide

/-- Claim C7 (amended): for up to 255 registrations the handles are exactly
`1, 2, …, n` — dense, starting at 1, strictly increasing and never
reused — both for the global `SourceId::new` counter and for
`MapFileStore` registrations (whose 256th registration instead panics on
the `u8` conversion). -/
theorem handles_dense_until_255 (n : Nat) (h : n ≤ 255) :
    global_ids n = List.range' 1 n ∧ store_ids n = some (List.range' 1 n) := by
  refine ⟨global_ids_aux_eq_range n 1 (by omega), ?_⟩
  have hs := store_ids_aux_eq_range n [] (by simp; omega)
  simpa [store_ids] using hs

/-- Witness for the amended C7 at `n = 3`. -/
theorem handles_dense_until_255_witness :
    global_ids 3 = List.range' 1 3 ∧ store_ids 3 = some (List.range' 1 3) :=
  handles_dense_until_255 3 (by decide)

/-- Claim C10 (confirmed): because the line-start index always begins with
0, the reverse scan of `get_line_and_column_pos_is_on` always finds a line,
so the `pos out of bounds` panic is unreachable for every offset — even
past the end of the content — and any offset at or past every line start
(in particular the last one) is attributed to the last line. -/
theorem line_lookup_total (content : List Char) (pos : Nat) :
    (get_line_and_column_pos_is_on (lineStarts content) pos).isSome = true ∧
    ((∀ a ∈ lineStarts content, a ≤ pos) →
      ∃ c, get_line_and_column_pos_is_on (lineStarts content) pos =
        some ((lineStarts content).length - 1, c)) := by
  have hlen : 0 < (lineStarts content).length := by simp [lineStarts]
  constructor
  · have h0 : (0 : Nat) ∈ (lineStarts content).reverse := by
      rw [List.mem_reverse]
      exact List.mem_cons_self _ _
    have hsome := findIndexFrom?_isSome_of_mem (p := fun idx => decide (idx ≤ pos)) h0
      (by simp)
    obtain ⟨b, hb⟩ := Option.isSome_iff_exists.mp hsome
    have hblen := findIndexFrom?_lt_length hb
    rw [List.length_reverse] at hblen
    have hidx : (lineStarts content).length - 1 - b < (lineStarts content).length := by
      omega
    simp [get_line_and_column_pos_is_on, hb, List.getElem?_eq_getElem hidx]
  · intro hall
    cases hrev : (lineStarts content).reverse with
    | nil =>
      exfalso
      have := congrArg List.length hrev
      simp [lineStarts] at this
    | cons a r =>
      have ha : a ∈ lineStarts content := by
        rw [← List.mem_reverse, hrev]
        exact List.mem_cons_self _ _
      have hfind : findIndexFrom? (fun idx => decide (idx ≤ pos))
          (lineStarts content).reverse = some 0 := by
        rw [hrev]
        exact findIndexFrom?_cons_of_true r (by simp [hall a ha])
      have hidx : (lineStarts content).length - 1 < (lineStarts content).length := by
        omega
      refine ⟨pos - (lineStarts content)[(lineStarts content).length - 1], ?_⟩
      simp [get_line_and_column_pos_is_on, hfind, List.getElem?_eq_getElem hidx]

/-- Witness for C10: on content `"a\x0ab"` (line starts `[0, 2]`) the
offset 10 — far past the end — is attributed to the last line, line 1. -/
theorem line_lookup_total_witness :
    (get_line_and_column_pos_is_on (lineStarts ['a', '\n', 'b']) 10).isSome = true ∧
    ∃ c, get_line_and_column_pos_is_on (lineStarts ['a', '\n', 'b']) 10 = some (1, c) :=
  ⟨(line_lookup_total ['a', '\n', 'b'] 10).1,
    (line_lookup_total ['a', '\n', 'b'] 10).2 (by decide)⟩
